import Mathlib

/-!
Verification development for the SessionScribe PHI Redaction Engine.

The desktop shell (Electron main process, React renderer) is embedded from
the TypeScript sources under `apps/desktop`.  The redaction core (apply
engine, entity merger, session entity index) lives in the Python services
that are orchestrated by these sources; definitions for that core are
modelled from the specification and are marked as such in their doc
comments.  Text is represented as `List Char` so that character-offset
reasoning is exact.
-/

namespace SessionScribe

/-! ## Live dashboard (LiveDashboard component, PHIReview.tsx) -/

/-- Status record returned by `GET /insights/status`, as consumed by the
`LiveDashboard` component (`InsightsStatus` interface). -/
structure InsightsStatus where
  available : Bool
  offline_mode : Bool
  redact_before_send : Bool
  provider : String
deriving DecidableEq

/-- Embedding of `canSend` from `LiveDashboard`: the send button is enabled
iff the service is available, a snapshot id is loaded, at least one insight
type is selected, and no request is in flight. -/
def canSend (status : Option InsightsStatus) (currentSnapshot : Option String)
    (selectedCount : Nat) (isLoading : Bool) : Bool :=
  (status.map (·.available)).getD false && currentSnapshot.isSome &&
    decide (0 < selectedCount) && !isLoading

/-- Embedding of `getStatusMessage` from `LiveDashboard`: the if-chain is kept
in source order (offline flag, then redact-before-send, then snapshot, then
selection). -/
def getStatusMessage (status : Option InsightsStatus) (currentSnapshot : Option String)
    (selectedCount : Nat) : String :=
  match status with
  | none => "Loading status..."
  | some st =>
    if st.offline_mode then "Dashboard disabled - offline mode enabled"
    else if !st.redact_before_send then "Dashboard disabled - redaction required"
    else if currentSnapshot.isNone then "No redacted snapshot available"
    else if selectedCount == 0 then "Select insights to request"
    else "Ready to send for insights"

/-! ## Outbound request bodies (sendForInsights in LiveDashboard, generateNote in NotePanel) -/

/-- JSON values appearing in the two outbound request bodies. -/
inductive JsonValue where
  | str (s : String)
  | arr (xs : List String)
deriving DecidableEq

/-- Body of `POST /insights/send` as built by `sendForInsights`:
`{ snapshot_id: currentSnapshot, ask_for: Array.from(selectedInsights) }`. -/
def sendForInsightsBody (snapshotId : String) (askFor : List String) :
    List (String × JsonValue) :=
  [("snapshot_id", .str snapshotId), ("ask_for", .arr askFor)]

/-- Body of `POST /note/generate` as built by `generateNote`:
`{ transcript_redacted: redactedText, session_type: 'Individual',
prompt_version: 'default' }`. -/
def generateNoteBody (transcriptRedacted : String) : List (String × JsonValue) :=
  [("transcript_redacted", .str transcriptRedacted),
   ("session_type", .str "Individual"),
   ("prompt_version", .str "default")]

/-- A request body presents a snapshot id iff it has a `snapshot_id` field. -/
def presentsSnapshotId (body : List (String × JsonValue)) : Bool :=
  body.any (fun f => f.1 == "snapshot_id")

/-! ## Safe-file protocol handler (registerFileProtocol in electron main.ts) -/

/-- Split a character list on the path separator. The result is always
nonempty; consecutive separators yield empty segments (as with
`"a//b".split('/')`). -/
def splitOnSlash (cs : List Char) : List (List Char) :=
  cs.foldr
    (fun c acc =>
      match acc with
      | [] => [[c]]
      | seg :: segs => if c = '/' then [] :: seg :: segs else (c :: seg) :: segs)
    [[]]

/-- Segment-level normalization of Node `path.normalize`: empty and `.`
segments vanish, `..` pops the previous segment, and a `..` at the root of an
absolute path is discarded. -/
def normalizeSegs (isAbs : Bool) (segs : List (List Char)) : List (List Char) :=
  (segs.foldl
    (fun stack seg =>
      if seg = [] ∨ seg = ['.'] then stack
      else if seg = ['.', '.'] then
        match stack with
        | [] => if isAbs then [] else [seg]
        | top :: rest => if top = ['.', '.'] then seg :: stack else rest
      else seg :: stack)
    []).reverse

/-- Join path segments with the separator. -/
def joinSegs (segs : List (List Char)) : List Char :=
  List.intercalate ['/'] segs

/-- Model of Node `path.normalize` (separator `/`). -/
def normalizePath (p : List Char) : List Char :=
  let isAbs : Bool :=
    match p with
    | [] => false
    | c :: _ => c = '/'
  let body := joinSegs (normalizeSegs isAbs (splitOnSlash p))
  if isAbs then '/' :: body else if body = [] then ['.'] else body

/-- Model of Node `path.join(a, b)` (separator `/`): concatenate with a
separator and normalize. -/
def pathJoin (a b : List Char) : List Char :=
  normalizePath (a ++ '/' :: b)

/-- Embedding of the `safe-file` protocol handler registered in
`main.ts`: strip the 10-character scheme `safe-file:` from the request URL,
join it onto the output directory, and serve the file only when the joined
path has the output directory as a plain string prefix; otherwise abort with
error code `-3`. -/
def safeFileProtocolHandler (outputDir requestUrl : List Char) :
    Except Int (List Char) :=
  let url := requestUrl.drop 10
  let filePath := pathJoin outputDir url
  if outputDir.isPrefixOf filePath then Except.ok filePath
  else Except.error (-3)

/-! ## Data model (spec section 3; Entity/Snapshot interfaces in PHIReview.tsx) -/

/-- Detection lane of an entity: `pattern` is the fast lane, `contextual` the
slow lane. -/
inductive DetectionMethod where
  | pattern
  | contextual
deriving DecidableEq

/-- Provenance context attached to an entity (spec section 3). -/
structure EntityContext where
  chunk_id : String
  surrounding_text : List Char
  channel : String
  t0 : ℚ
  t1 : ℚ
deriving DecidableEq

/-- A detected PHI span (spec section 3; `Entity` interface in
PHIReview.tsx). `text` is the span's characters, `start`/`end` are absolute
character offsets into the buffer, half-open. -/
structure Entity where
  id : String
  label : String
  text : List Char
  start : Nat
  «end» : Nat
  confidence : ℚ
  method : DetectionMethod
  contexts : List EntityContext
deriving DecidableEq

/-- Modelled from the spec: the immutable `Snapshot` produced by the Snapshot
Builder (spec sections 3 and 4.4); the builder itself is in the redaction
service, whose Python source is not part of this tree. `text` is the buffer
text at `buffer_version`, from which the Apply Engine derives the redacted
artifact; the derived preview fields (`preview_diff`, length metrics,
`redacted_text`) are not needed by the apply contract and are omitted here. -/
structure Snapshot where
  snapshot_id : String
  buffer_version : Nat
  text : List Char
  entities : List Entity
deriving DecidableEq

/-- Valid span of an entity with respect to a buffer text: nonempty and
within bounds. -/
def ValidSpan (t : List Char) (e : Entity) : Prop :=
  e.start < e.«end» ∧ e.«end» ≤ t.length

instance (t : List Char) (e : Entity) : Decidable (ValidSpan t e) :=
  inferInstanceAs (Decidable (_ ∧ _))

/-- Two entities occupy disjoint half-open ranges. -/
def SpanDisjoint (a b : Entity) : Prop :=
  a.«end» ≤ b.start ∨ b.«end» ≤ a.start

instance : DecidableRel SpanDisjoint :=
  fun _ _ => inferInstanceAs (Decidable (_ ∨ _))

/-! ## Apply Engine (spec section 4.5) -/

/-- Placeholder token derived from an entity label, e.g. `[PHONE]`. -/
def placeholder (label : String) : List Char :=
  '[' :: label.data ++ [']']

/-- Replace the half-open span `[s, e)` of `t` with `ph`. -/
def replaceSpan (t : List Char) (s e : Nat) (ph : List Char) : List Char :=
  t.take s ++ ph ++ t.drop e

/-- Insert an entity into a list sorted by descending `start`. -/
def insertDesc (e : Entity) : List Entity → List Entity
  | [] => [e]
  | f :: fs => if f.start ≤ e.start then e :: f :: fs else f :: insertDesc e fs

/-- Sort entities by descending `start` offset. -/
def sortDesc (es : List Entity) : List Entity :=
  es.foldr insertDesc []

/-- The same entities by ascending `start` offset (the order in which the
preserved gaps of the text appear). -/
def sortAsc (es : List Entity) : List Entity :=
  (sortDesc es).reverse

/-- Modelled from the spec: the masking step of the Apply Engine (spec
section 4.5), whose Python source is not part of this tree. Each accepted
entity's span is replaced with the placeholder for its label, processed in
descending order of `start` offset. -/
def applyMask (t : List Char) (es : List Entity) : List Char :=
  (sortDesc es).foldl (fun acc e => replaceSpan acc e.start e.«end» (placeholder e.label)) t

/-- Entities of a snapshot selected by the caller's accepted id list. -/
def acceptedOf (snap : Snapshot) (ids : List String) : List Entity :=
  snap.entities.filter (fun e => ids.contains e.id)

/-- Modelled from the spec: `apply(snapshot, accepted_entity_ids)` masking
computation (spec section 4.5). -/
def applyEngine (snap : Snapshot) (ids : List String) : List Char :=
  applyMask snap.text (acceptedOf snap ids)

/-- Result of an apply call: either the redacted text with the number of
entities applied, or a validation error carrying no output. -/
inductive ApplyResult where
  | applied (redacted_text : List Char) (entities_applied : Nat)
  | validationError
deriving DecidableEq

/-- Modelled from the spec: the full apply operation (spec sections 4.5
and 7): `accepted_entity_ids` must be a subset of the snapshot's entity ids;
an unknown id is a `ValidationError` and no partial output is returned. -/
def applyCall (snap : Snapshot) (accepted_entity_ids : List String) : ApplyResult :=
  if accepted_entity_ids.all (fun i => snap.entities.any (fun e => e.id == i)) then
    ApplyResult.applied (applyEngine snap accepted_entity_ids)
      (acceptedOf snap accepted_entity_ids).length
  else ApplyResult.validationError

/-- Specification-side description of masking: simultaneous replacement of an
ascending, pairwise disjoint list of spans, written so that the preserved
gaps of the original text are explicit. -/
def maskAbs (t : List Char) : List Entity → List Char
  | [] => t
  | e :: es => t.take e.start ++ placeholder e.label ++ (maskAbs t es).drop e.«end»

/-! ## Entity Merger and session entity index (spec sections 4.3 and 5) -/

/-- Boolean test that two half-open spans `[start, end)` intersect. -/
def overlaps (a b : Entity) : Bool :=
  decide (a.start < b.«end») && decide (b.start < a.«end»)

/-- Modelled from the spec: the merge tie-breaking rule (spec section 4.3),
whose Python source is not part of this tree. A challenger supersedes an
overlapping incumbent when it has strictly higher confidence, or on a
confidence tie when the challenger is from the slow (contextual) lane and the
incumbent from the fast (pattern) lane. -/
def beats (challenger incumbent : Entity) : Bool :=
  decide (incumbent.confidence < challenger.confidence) ||
    (decide (challenger.confidence = incumbent.confidence) &&
      (decide (challenger.method = DetectionMethod.contextual) &&
        decide (incumbent.method = DetectionMethod.pattern)))

/-- Incumbent index entities whose spans overlap a new detection. -/
def overlappedBy (index : List Entity) (e : Entity) : List Entity :=
  index.filter (fun f => overlaps f e)

/-- Modelled from the spec: insertion of one new detection into the entity
index (spec section 4.3), whose Python source is not part of this tree. A
non-overlapping detection is appended; a detection that supersedes every
overlapping incumbent replaces them, keeping the first incumbent's stable id
and the union of the contexts; otherwise the detection is dropped and its
contexts are absorbed by the overlapping incumbents (wholly contained
duplicates fall under this dropping case). -/
def addDetection (index : List Entity) (e : Entity) : List Entity :=
  if (overlappedBy index e).isEmpty then index ++ [e]
  else if (overlappedBy index e).all (fun f => beats e f) then
    index.filter (fun f => !overlaps f e) ++
      [{ e with id := ((overlappedBy index e).head?.getD e).id,
                contexts :=
                  (overlappedBy index e).foldl (fun acc f => acc ++ f.contexts) e.contexts }]
  else
    index.map (fun f =>
      if overlaps f e then { f with contexts := f.contexts ++ e.contexts } else f)

/-- Modelled from the spec: merging a batch of detections from either lane
into the index, one at a time (spec section 4.3). -/
def mergeDetections (index : List Entity) (news : List Entity) : List Entity :=
  news.foldl addDetection index

/-- Per-session state: append-only chunk buffer with its version counter, and
the entity index (spec section 3). -/
structure SessionState where
  buffer : List Char
  version : Nat
  index : List Entity
deriving DecidableEq

/-- Events acting on a session: an ingest appends a chunk's text and merges
the fast-lane findings inline; a slow-lane pass merges its findings over the
accumulated buffer. The findings are carried by the event so the index
invariants hold for arbitrary detector output. -/
inductive SessionEvent where
  | ingest (text : List Char) (found : List Entity)
  | slowPass (found : List Entity)

/-- Modelled from the spec: one session transition (spec sections 4.1, 4.3
and 5), whose Python source is not part of this tree. -/
def sessionStep (st : SessionState) : SessionEvent → SessionState
  | .ingest text found =>
    { buffer := st.buffer ++ text
      version := st.version + 1
      index := mergeDetections st.index found }
  | .slowPass found =>
    { st with index := mergeDetections st.index found }

/-- Fresh session state created on first ingest for a new session id. -/
def initSession : SessionState :=
  { buffer := [], version := 0, index := [] }

/-- Run a session through a list of events. -/
def runSession : SessionState → List SessionEvent → SessionState
  | st, [] => st
  | st, ev :: evs => runSession (sessionStep st ev) evs

/-- Pairwise disjointness of the entity index, stated with the merger's own
overlap test. -/
def NoOverlap (index : List Entity) : Prop :=
  index.Pairwise (fun a b => overlaps a b = false)

/-! ## PHI review component state (PHIReview component, PHIReview.tsx) -/

/-- The `Snapshot` interface consumed by the review component. -/
structure UISnapshot where
  snapshot_id : String
  entities : List Entity
  preview_diff : String
  original_length : Nat
  redacted_length : Nat
  redacted_text : String
deriving DecidableEq

/-- React state of `PHIReview`: the loaded snapshot and the per-entity
accept/reject record (`entityStatuses`), kept as an insertion-ordered
association list exactly as a JS object holds string keys. -/
structure ReviewState where
  snapshot : Option UISnapshot
  entityStatuses : List (String × Bool)
deriving DecidableEq

/-- Initial component state: no snapshot, empty status record. -/
def initReviewState : ReviewState :=
  { snapshot := none, entityStatuses := [] }

/-- Read `entityStatuses[id]`; a missing key is falsy (JS `undefined`). -/
def lookupStatus (ss : List (String × Bool)) (id : String) : Bool :=
  match ss.find? (fun kv => kv.1 == id) with
  | some kv => kv.2
  | none => false

/-- Write `entityStatuses[id] = b`: update in place when the key exists,
otherwise append (JS object insertion order). -/
def setStatus : List (String × Bool) → String → Bool → List (String × Bool)
  | [], id, b => [(id, b)]
  | kv :: rest, id, b =>
    if kv.1 == id then (id, b) :: rest else kv :: setStatus rest id b

/-- Status record built by `loadSnapshot`: every entity of the snapshot is
marked accepted. -/
def loadStatuses (entities : List Entity) : List (String × Bool) :=
  entities.foldl (fun ss e => setStatus ss e.id true) []

/-- Embedding of `loadSnapshot` (the part that mutates component state). -/
def uiLoadSnapshot (_st : ReviewState) (snap : UISnapshot) : ReviewState :=
  { snapshot := some snap, entityStatuses := loadStatuses snap.entities }

/-- Embedding of `toggleEntity`: `statuses[id] = !statuses[id]`. -/
def uiToggleEntity (st : ReviewState) (id : String) : ReviewState :=
  { st with
    entityStatuses := setStatus st.entityStatuses id (!lookupStatus st.entityStatuses id) }

/-- Embedding of `toggleAllEntities`: rebuild the record from the loaded
snapshot's entities with the given flag (empty when no snapshot). -/
def uiToggleAll (st : ReviewState) (accepted : Bool) : ReviewState :=
  { st with
    entityStatuses :=
      match st.snapshot with
      | some snap => snap.entities.foldl (fun ss e => setStatus ss e.id accepted) []
      | none => [] }

/-- Embedding of the `acceptedEntityIds` computation in `applyRedactions`:
keys of the status record whose value is true, in insertion order. -/
def acceptedEntityIds (st : ReviewState) : List String :=
  (st.entityStatuses.filter (fun kv => kv.2)).map (fun kv => kv.1)

/-- User-interface events that mutate the review state. -/
inductive ReviewEvent where
  | load (snap : UISnapshot)
  | toggle (id : String)
  | toggleAll (accepted : Bool)

/-- Transition function of the review component. -/
def reviewStep (st : ReviewState) : ReviewEvent → ReviewState
  | .load snap => uiLoadSnapshot st snap
  | .toggle id => uiToggleEntity st id
  | .toggleAll b => uiToggleAll st b

/-- An event the rendered UI can actually fire: `toggleEntity` is only ever
invoked from an entity card, whose id comes from the loaded snapshot's
entity list. -/
def EventFromUI (st : ReviewState) : ReviewEvent → Prop
  | .toggle id => ∃ snap, st.snapshot = some snap ∧ id ∈ snap.entities.map (·.id)
  | _ => True

/-- Run the review component through a list of events. -/
def runReview : ReviewState → List ReviewEvent → ReviewState
  | st, [] => st
  | st, ev :: evs => runReview (reviewStep st ev) evs

/-- A trace of events each of which the rendered UI can fire from the state
it is applied in. -/
inductive ValidTrace : ReviewState → List ReviewEvent → Prop
  | nil (st : ReviewState) : ValidTrace st []
  | cons (st : ReviewState) (ev : ReviewEvent) (evs : List ReviewEvent) :
      EventFromUI st ev → ValidTrace (reviewStep st ev) evs → ValidTrace st (ev :: evs)

/-- Invariant: every key of the status record is an entity id of the loaded
snapshot. -/
def StatusesCovered (st : ReviewState) : Prop :=
  ∀ kv ∈ st.entityStatuses, ∃ snap, st.snapshot = some snap ∧ kv.1 ∈ snap.entities.map (·.id)

/-! ## Concrete sample data (the spec's example scenarios) -/

/-- Fast-lane phone detection from the spec's example
`"Call John Smith at 555-123-4567"` (pattern lane, confidence 0.8). -/
def phoneEntity : Entity :=
  { id := "e1", label := "PHONE", text := "555-123-4567".data, start := 19, «end» := 31,
    confidence := mkRat 8 10, method := DetectionMethod.pattern, contexts := [] }

/-- Slow-lane person detection from the same example text. -/
def personEntity : Entity :=
  { id := "e2", label := "PERSON", text := "John Smith".data, start := 5, «end» := 15,
    confidence := mkRat 9 10, method := DetectionMethod.contextual, contexts := [] }

/-- Contextual-lane identifier detection overlapping the phone span
(confidence 0.6), from the spec's overlap example. -/
def identifierEntity : Entity :=
  { id := "e9", label := "MRN", text := "123-4567".data, start := 23, «end» := 31,
    confidence := mkRat 6 10, method := DetectionMethod.contextual, contexts := [] }

/-- Snapshot over the spec's example buffer with the person and phone
entities. -/
def exampleSnapshot : Snapshot :=
  { snapshot_id := "snap-1", buffer_version := 1,
    text := "Call John Smith at 555-123-4567".data,
    entities := [personEntity, phoneEntity] }

/-- The same snapshot as served to the review component. -/
def exampleUISnapshot : UISnapshot :=
  { snapshot_id := "snap-1", entities := [personEntity, phoneEntity],
    preview_diff := "", original_length := 31, redacted_length := 31,
    redacted_text := "" }

/-! ## Helper lemmas: sorting by start offset -/

theorem insertDesc_perm (e : Entity) (l : List Entity) :
    List.Perm (insertDesc e l) (e :: l) := by
  induction l with
  | nil => exact List.Perm.refl _
  | cons f fs ih =>
    simp only [insertDesc]
    split
    · exact List.Perm.refl _
    · exact (List.Perm.cons f ih).trans (List.Perm.swap e f fs)

theorem sortDesc_perm (es : List Entity) : List.Perm (sortDesc es) es := by
  induction es with
  | nil => exact List.Perm.refl _
  | cons e es ih =>
    exact (insertDesc_perm e (sortDesc es)).trans (List.Perm.cons e ih)

theorem insertDesc_sorted (e : Entity) (l : List Entity)
    (h : l.Pairwise (fun a b => b.start ≤ a.start)) :
    (insertDesc e l).Pairwise (fun a b => b.start ≤ a.start) := by
  induction l with
  | nil => simp [insertDesc]
  | cons f fs ih =>
    rw [List.pairwise_cons] at h
    obtain ⟨hf, hfs⟩ := h
    simp only [insertDesc]
    split
    case isTrue hle =>
      rw [List.pairwise_cons]
      refine ⟨?_, List.pairwise_cons.mpr ⟨hf, hfs⟩⟩
      intro b hb
      rcases List.mem_cons.mp hb with rfl | hb
      · exact hle
      · exact Nat.le_trans (hf b hb) hle
    case isFalse hgt =>
      rw [List.pairwise_cons]
      refine ⟨?_, ih hfs⟩
      intro b hb
      rcases List.mem_cons.mp ((insertDesc_perm e fs).mem_iff.mp hb) with rfl | hb
      · exact Nat.le_of_lt (Nat.lt_of_not_le hgt)
      · exact hf b hb

theorem sortDesc_sorted (es : List Entity) :
    (sortDesc es).Pairwise (fun a b => b.start ≤ a.start) := by
  induction es with
  | nil => exact List.Pairwise.nil
  | cons e es ih => exact insertDesc_sorted e (sortDesc es) ih

theorem sortAsc_perm (es : List Entity) : List.Perm (sortAsc es) es :=
  (List.reverse_perm (sortDesc es)).trans (sortDesc_perm es)

theorem sortAsc_sorted_start (es : List Entity) :
    (sortAsc es).Pairwise (fun a b => a.start ≤ b.start) := by
  rw [sortAsc, List.pairwise_reverse]
  exact sortDesc_sorted es

/-- Ascending sorted order plus pairwise disjointness of valid spans forces
the gap order: each entity ends before the next begins. -/
theorem sortAsc_gap (t : List Char) (es : List Entity)
    (hwf : ∀ e ∈ es, ValidSpan t e) (hdisj : es.Pairwise SpanDisjoint) :
    (sortAsc es).Pairwise (fun a b => a.«end» ≤ b.start) := by
  have hperm := sortAsc_perm es
  have hd : (sortAsc es).Pairwise SpanDisjoint :=
    hdisj.perm hperm.symm (fun h => h.symm)
  have hs := sortAsc_sorted_start es
  refine (hs.and hd).imp_of_mem ?_
  intro a b ha hb hab
  obtain ⟨hle, hdab⟩ := hab
  rcases hdab with h | h
  · exact h
  · exfalso
    have hwb := hwf b (hperm.mem_iff.mp hb)
    exact Nat.lt_irrefl b.start (Nat.lt_of_lt_of_le hwb.1 (Nat.le_trans h hle))

/-! ## Helper lemmas: masking -/

theorem maskAbs_take (t : List Char) (l : List Entity) (s : Nat)
    (hs : ∀ f ∈ l, s ≤ f.start) (hlen : s ≤ t.length) :
    (maskAbs t l).take s = t.take s := by
  cases l with
  | nil => rfl
  | cons f rest =>
    have hsf : s ≤ f.start := hs f (List.mem_cons_self f rest)
    have hmin : s ≤ (t.take f.start).length := by
      rw [List.length_take]
      exact le_min hsf hlen
    have hmin' : s - (t.take f.start ++ placeholder f.label).length = 0 := by
      rw [List.length_append]
      omega
    simp only [maskAbs]
    rw [List.take_append_eq_append_take, hmin', List.take_zero, List.append_nil,
      List.take_append_eq_append_take, Nat.sub_eq_zero_of_le hmin, List.take_zero,
      List.append_nil, List.take_take, min_eq_left hsf]

theorem foldr_replaceSpan_eq_maskAbs (t : List Char) (l : List Entity)
    (hwf : ∀ e ∈ l, ValidSpan t e)
    (hgap : l.Pairwise (fun a b => a.«end» ≤ b.start)) :
    l.foldr (fun e acc => replaceSpan acc e.start e.«end» (placeholder e.label)) t
      = maskAbs t l := by
  induction l with
  | nil => rfl
  | cons e rest ih =>
    rw [List.pairwise_cons] at hgap
    obtain ⟨he, hrest⟩ := hgap
    have hwfe := hwf e (List.mem_cons_self e rest)
    have ihr := ih (fun x hx => hwf x (List.mem_cons_of_mem e hx)) hrest
    rw [List.foldr_cons, ihr]
    show replaceSpan (maskAbs t rest) e.start e.«end» (placeholder e.label) = _
    unfold replaceSpan
    simp only [maskAbs]
    rw [maskAbs_take t rest e.start
      (fun f hf => Nat.le_trans (Nat.le_of_lt hwfe.1) (he f hf))
      (Nat.le_trans (Nat.le_of_lt hwfe.1) hwfe.2)]

/-- The Apply Engine's right-to-left replacement equals the simultaneous
masking of the spans in ascending order. -/
theorem applyMask_eq_maskAbs (t : List Char) (es : List Entity)
    (hwf : ∀ e ∈ es, ValidSpan t e) (hdisj : es.Pairwise SpanDisjoint) :
    applyMask t es = maskAbs t (sortAsc es) := by
  have hrev : sortDesc es = (sortAsc es).reverse := by
    rw [sortAsc, List.reverse_reverse]
  unfold applyMask
  rw [hrev, List.foldl_reverse]
  exact foldr_replaceSpan_eq_maskAbs t (sortAsc es)
    (fun e he => hwf e ((sortAsc_perm es).mem_iff.mp he))
    (sortAsc_gap t es hwf hdisj)

/-- A span of the original text that is disjoint from every masked span
survives verbatim, as an infix of the masked text. Stated relative to a drop
offset `d` so that the recursion over the ascending span list goes
through. -/
theorem slice_infix_maskAbs_drop (t : List Char) (r : Entity) (l : List Entity) :
    ∀ d : Nat,
      (∀ f ∈ l, ValidSpan t f) →
      l.Pairwise (fun a b => a.«end» ≤ b.start) →
      (∀ f ∈ l, d ≤ f.start) →
      (∀ f ∈ l, r.«end» ≤ f.start ∨ f.«end» ≤ r.start) →
      d ≤ r.start →
      (t.drop r.start).take (r.«end» - r.start) <:+: (maskAbs t l).drop d := by
  induction l with
  | nil =>
    intro d _ _ _ _ hdr
    exact (List.take_prefix _ _).isInfix.trans (List.drop_suffix_drop_left t hdr).isInfix
  | cons f rest ih =>
    intro d hwf hgap hd hdisj hdr
    have hwff := hwf f (List.mem_cons_self f rest)
    have hdf : d ≤ f.start := hd f (List.mem_cons_self f rest)
    have hft : f.start ≤ t.length := Nat.le_trans (Nat.le_of_lt hwff.1) hwff.2
    have hAlen : (t.take f.start).length = f.start := by
      rw [List.length_take]
      exact min_eq_left hft
    have h0 : d - (t.take f.start).length = 0 := by
      rw [hAlen]
      omega
    have h0' : d - (t.take f.start ++ placeholder f.label).length = 0 := by
      rw [List.length_append, hAlen]
      omega
    simp only [maskAbs]
    rw [List.drop_append_eq_append_drop, List.drop_append_eq_append_drop, h0, h0']
    simp only [List.drop_zero]
    rcases hdisj f (List.mem_cons_self f rest) with hleft | hright
    · -- the rejected span lies wholly left of `f`: it sits in the preserved
      -- prefix `t.take f.start`
      have hslice : (t.drop r.start).take (r.«end» - r.start)
          <+: (t.take f.start).drop r.start := by
        rw [List.drop_take]
        have hm : r.«end» - r.start ≤ f.start - r.start := by omega
        rw [show r.«end» - r.start = min (r.«end» - r.start) (f.start - r.start) from
          (min_eq_left hm).symm, ← List.take_take]
        exact List.take_prefix _ _
      have hsuf : (t.take f.start).drop r.start <:+ (t.take f.start).drop d :=
        List.drop_suffix_drop_left _ hdr
      refine (hslice.isInfix.trans hsuf.isInfix).trans ?_
      rw [List.append_assoc]
      exact (List.prefix_append _ _).isInfix
    · -- the rejected span lies wholly right of `f`: recurse into the masked
      -- remainder after dropping `f.end`
      have hpair := List.pairwise_cons.mp hgap
      have ihr := ih f.«end»
        (fun x hx => hwf x (List.mem_cons_of_mem f hx))
        hpair.2
        (fun x hx => hpair.1 x hx)
        (fun x hx => hdisj x (List.mem_cons_of_mem f hx))
        hright
      exact ihr.trans (List.suffix_append _ _).isInfix

/-! ## Helper lemmas: merger invariant -/

theorem overlaps_eq_false_iff (a b : Entity) :
    overlaps a b = false ↔ SpanDisjoint a b := by
  unfold overlaps SpanDisjoint
  rw [Bool.and_eq_false_iff]
  simp only [decide_eq_false_iff_not, Nat.not_lt]
  exact Or.comm

theorem overlaps_congr {a b a' b' : Entity}
    (h1 : a'.start = a.start) (h2 : a'.«end» = a.«end»)
    (h3 : b'.start = b.start) (h4 : b'.«end» = b.«end») :
    overlaps a' b' = overlaps a b := by
  unfold overlaps
  rw [h1, h2, h3, h4]

theorem noOverlap_addDetection (index : List Entity) (e : Entity)
    (h : NoOverlap index) : NoOverlap (addDetection index e) := by
  unfold NoOverlap addDetection at *
  split
  case isTrue hempty =>
    have hno : ∀ f ∈ index, overlaps f e = false := by
      have := List.isEmpty_iff.mp hempty
      unfold overlappedBy at this
      intro f hf
      by_contra hcon
      have hmem : f ∈ index.filter (fun f => overlaps f e) :=
        List.mem_filter.mpr ⟨hf, by simpa using hcon⟩
      rw [this] at hmem
      exact absurd hmem (List.not_mem_nil f)
    rw [List.pairwise_append]
    refine ⟨h, List.pairwise_singleton _ _, ?_⟩
    intro a ha b hb
    rw [List.mem_singleton] at hb
    subst hb
    exact hno a ha
  case isFalse hne =>
    split
    case isTrue hall =>
      rw [List.pairwise_append]
      refine ⟨h.sublist (List.filter_sublist index), List.pairwise_singleton _ _, ?_⟩
      intro a ha b hb
      rw [List.mem_singleton] at hb
      subst hb
      have hflt := List.mem_filter.mp ha
      have : overlaps a e = false := by
        have := hflt.2
        simpa using this
      exact this
    case isFalse hnall =>
      rw [List.pairwise_map]
      refine h.imp_of_mem ?_
      intro a b _ _ hab
      have hs : ∀ x : Entity,
          ((if overlaps x e then { x with contexts := x.contexts ++ e.contexts } else x) :
            Entity).start = x.start := by
        intro x
        split <;> rfl
      have he' : ∀ x : Entity,
          ((if overlaps x e then { x with contexts := x.contexts ++ e.contexts } else x) :
            Entity).«end» = x.«end» := by
        intro x
        split <;> rfl
      rw [overlaps_congr (hs a) (he' a) (hs b) (he' b)]
      exact hab

theorem noOverlap_mergeDetections (index news : List Entity)
    (h : NoOverlap index) : NoOverlap (mergeDetections index news) := by
  induction news generalizing index with
  | nil => exact h
  | cons n ns ih => exact ih (addDetection index n) (noOverlap_addDetection index n h)

theorem noOverlap_sessionStep (st : SessionState) (ev : SessionEvent)
    (h : NoOverlap st.index) : NoOverlap (sessionStep st ev).index := by
  cases ev with
  | ingest text found => exact noOverlap_mergeDetections st.index found h
  | slowPass found => exact noOverlap_mergeDetections st.index found h

theorem noOverlap_runSession (evs : List SessionEvent) :
    ∀ st : SessionState, NoOverlap st.index → NoOverlap (runSession st evs).index := by
  induction evs with
  | nil => exact fun st h => h
  | cons ev evs ih =>
    intro st h
    exact ih (sessionStep st ev) (noOverlap_sessionStep st ev h)

/-! ## Helper lemmas: accepted id lists -/

theorem contains_congr_of_mem_iff (ids₁ ids₂ : List String)
    (h : ∀ i, i ∈ ids₁ ↔ i ∈ ids₂) (x : String) :
    ids₁.contains x = ids₂.contains x := by
  by_cases hx : x ∈ ids₂
  · have e1 : ids₁.contains x = true := List.elem_iff.mpr ((h x).mpr hx)
    have e2 : ids₂.contains x = true := List.elem_iff.mpr hx
    rw [e1, e2]
  · have h1 : x ∉ ids₁ := fun hx1 => hx ((h x).mp hx1)
    have e1 : ids₁.contains x = false := by
      cases hc : ids₁.contains x
      · rfl
      · exact absurd (List.elem_iff.mp hc) h1
    have e2 : ids₂.contains x = false := by
      cases hc : ids₂.contains x
      · rfl
      · exact absurd (List.elem_iff.mp hc) hx
    rw [e1, e2]

theorem acceptedOf_congr (snap : Snapshot) (ids₁ ids₂ : List String)
    (h : ∀ i, i ∈ ids₁ ↔ i ∈ ids₂) :
    acceptedOf snap ids₁ = acceptedOf snap ids₂ := by
  unfold acceptedOf
  exact List.filter_congr fun e _ => contains_congr_of_mem_iff ids₁ ids₂ h e.id

/-! ## Helper lemmas: review component state -/

theorem mem_setStatus (ss : List (String × Bool)) (id : String) (b : Bool) :
    ∀ kv ∈ setStatus ss id b, kv.1 = id ∨ kv ∈ ss := by
  induction ss with
  | nil =>
    intro kv h
    simp only [setStatus] at h
    rw [List.mem_singleton] at h
    exact Or.inl (by rw [h])
  | cons hd tl ih =>
    intro kv h
    simp only [setStatus] at h
    split at h
    · rcases List.mem_cons.mp h with h1 | h1
      · exact Or.inl (by rw [h1])
      · exact Or.inr (List.mem_cons_of_mem hd h1)
    · rcases List.mem_cons.mp h with h1 | h1
      · exact Or.inr (by rw [h1]; exact List.mem_cons_self hd tl)
      · rcases ih kv h1 with h2 | h2
        · exact Or.inl h2
        · exact Or.inr (List.mem_cons_of_mem hd h2)

theorem mem_foldl_setStatus (es : List Entity) (b : Bool) :
    ∀ (ss : List (String × Bool)) (kv : String × Bool),
      kv ∈ es.foldl (fun ss e => setStatus ss e.id b) ss →
      kv ∈ ss ∨ kv.1 ∈ es.map (·.id) := by
  induction es with
  | nil =>
    intro ss kv h
    exact Or.inl h
  | cons e es ih =>
    intro ss kv h
    rcases ih (setStatus ss e.id b) kv h with h' | h'
    · rcases mem_setStatus ss e.id b kv h' with h1 | h1
      · right
        rw [List.map_cons, h1]
        exact List.mem_cons_self _ _
      · exact Or.inl h1
    · right
      rw [List.map_cons]
      exact List.mem_cons_of_mem _ h'

theorem setStatus_of_fresh (ss : List (String × Bool)) (id : String) (b : Bool)
    (h : ∀ kv ∈ ss, kv.1 ≠ id) : setStatus ss id b = ss ++ [(id, b)] := by
  induction ss with
  | nil => rfl
  | cons hd tl ih =>
    have hne : (hd.1 == id) = false :=
      beq_eq_false_iff_ne.mpr (h hd (List.mem_cons_self hd tl))
    simp only [setStatus]
    rw [if_neg (by simp [hne]), ih (fun kv hkv => h kv (List.mem_cons_of_mem hd hkv)),
      List.cons_append]

theorem foldl_setStatus_fresh (es : List Entity) (b : Bool) :
    ∀ ss : List (String × Bool),
      (∀ e ∈ es, ∀ kv ∈ ss, kv.1 ≠ e.id) →
      (es.map (·.id)).Nodup →
      es.foldl (fun ss e => setStatus ss e.id b) ss = ss ++ es.map (fun e => (e.id, b)) := by
  induction es with
  | nil =>
    intro ss _ _
    simp
  | cons e es ih =>
    intro ss hdisj hnd
    rw [List.map_cons, List.nodup_cons] at hnd
    have h1 : setStatus ss e.id b = ss ++ [(e.id, b)] :=
      setStatus_of_fresh ss e.id b (hdisj e (List.mem_cons_self e es) · ·)
    have h2 : ∀ x ∈ es, ∀ kv ∈ ss ++ [(e.id, b)], kv.1 ≠ x.id := by
      intro x hx kv hkv
      rcases List.mem_append.mp hkv with hkv | hkv
      · exact hdisj x (List.mem_cons_of_mem e hx) kv hkv
      · rw [List.mem_singleton] at hkv
        subst hkv
        intro hcon
        have hcon' : e.id = x.id := hcon
        apply hnd.1
        rw [hcon']
        exact List.mem_map_of_mem (·.id) hx
    calc (e :: es).foldl (fun ss e => setStatus ss e.id b) ss
        = es.foldl (fun ss e => setStatus ss e.id b) (ss ++ [(e.id, b)]) := by
          rw [List.foldl_cons, h1]
      _ = (ss ++ [(e.id, b)]) ++ es.map (fun e => (e.id, b)) := ih _ h2 hnd.2
      _ = ss ++ (e :: es).map (fun e => (e.id, b)) := by
          rw [List.append_assoc, List.map_cons, List.singleton_append]

theorem statusesCovered_reviewStep (st : ReviewState) (ev : ReviewEvent)
    (hcov : StatusesCovered st) (hev : EventFromUI st ev) :
    StatusesCovered (reviewStep st ev) := by
  cases ev with
  | load snap =>
    intro kv hkv
    refine ⟨snap, rfl, ?_⟩
    rcases mem_foldl_setStatus snap.entities true [] kv hkv with h | h
    · exact absurd h (List.not_mem_nil kv)
    · exact h
  | toggle id =>
    intro kv hkv
    obtain ⟨snap, hsnap, hid⟩ := hev
    rcases mem_setStatus st.entityStatuses id _ kv hkv with h | h
    · exact ⟨snap, hsnap, by rw [h]; exact hid⟩
    · exact hcov kv h
  | toggleAll b =>
    intro kv hkv
    simp only [reviewStep, uiToggleAll] at hkv ⊢
    cases hsnap : st.snapshot with
    | none =>
      rw [hsnap] at hkv
      exact absurd hkv (List.not_mem_nil kv)
    | some snap =>
      rw [hsnap] at hkv
      refine ⟨snap, rfl, ?_⟩
      rcases mem_foldl_setStatus snap.entities b [] kv hkv with h | h
      · exact absurd h (List.not_mem_nil kv)
      · exact h

theorem statusesCovered_runReview (evs : List ReviewEvent) :
    ∀ st : ReviewState, StatusesCovered st → ValidTrace st evs →
      StatusesCovered (runReview st evs) := by
  induction evs with
  | nil => exact fun st h _ => h
  | cons ev evs ih =>
    intro st h htr
    cases htr with
    | cons _ _ _ hev htr' =>
      exact ih (reviewStep st ev) (statusesCovered_reviewStep st ev h hev) htr'

theorem acceptedEntityIds_covered (st : ReviewState) (hcov : StatusesCovered st) :
    ∀ i ∈ acceptedEntityIds st,
      ∃ snap, st.snapshot = some snap ∧ i ∈ snap.entities.map (·.id) := by
  intro i hi
  unfold acceptedEntityIds at hi
  obtain ⟨kv, hkv, hkvi⟩ := List.mem_map.mp hi
  obtain ⟨snap, hsnap, hmem⟩ := hcov kv (List.mem_filter.mp hkv).1
  exact ⟨snap, hsnap, by rw [← hkvi]; exact hmem⟩

theorem acceptedEntityIds_uiLoadSnapshot (st : ReviewState) (snap : UISnapshot)
    (hnd : (snap.entities.map (·.id)).Nodup) :
    acceptedEntityIds (uiLoadSnapshot st snap) = snap.entities.map (·.id) := by
  unfold acceptedEntityIds uiLoadSnapshot loadStatuses
  rw [foldl_setStatus_fresh snap.entities true []
    (fun e _ kv hkv => absurd hkv (List.not_mem_nil kv)) hnd, List.nil_append]
  rw [List.filter_eq_self.mpr ?_]
  · rw [List.map_map]
    rfl
  · intro kv hkv
    obtain ⟨e, _, hkve⟩ := List.mem_map.mp hkv
    rw [← hkve]

/-! ## Claim theorems -/

/-- Claim C1, counterexample: the note-generation request built by
`generateNote` presents no `snapshot_id` field at all; it carries the
transcript text itself in its `transcript_redacted` field, refuting the claim
that every downstream request presents a snapshot id plus an accepted-entity
selection. -/
theorem note_request_lacks_snapshot_id :
    presentsSnapshotId (generateNoteBody "Call John Smith at 555-123-4567") = false ∧
    ("transcript_redacted", JsonValue.str "Call John Smith at 555-123-4567") ∈
      generateNoteBody "Call John Smith at 555-123-4567" :=
  ⟨rfl, by simp [generateNoteBody]⟩

/-- Claim C1 (amended): the insights send presents a `snapshot_id` plus the
selected insight types and no other field; the note-generation call presents
no `snapshot_id` and instead sends the redacted transcript text in its
`transcript_redacted` field, together with the session type and prompt
version. -/
theorem outbound_request_shapes :
    (∀ (sid : String) (ask : List String),
        presentsSnapshotId (sendForInsightsBody sid ask) = true ∧
        (sendForInsightsBody sid ask).map Prod.fst = ["snapshot_id", "ask_for"]) ∧
    (∀ t : String,
        presentsSnapshotId (generateNoteBody t) = false ∧
        ("transcript_redacted", JsonValue.str t) ∈ generateNoteBody t ∧
        (generateNoteBody t).map Prod.fst =
          ["transcript_redacted", "session_type", "prompt_version"]) := by
  refine ⟨fun sid ask => ⟨rfl, rfl⟩, fun t => ⟨rfl, ?_, rfl⟩⟩
  simp [generateNoteBody]

/-- Claim C2, counterexample: the offline flag is set, yet `canSend` still
returns true, because `canSend` never consults the offline flag; sending is
not refused unconditionally by the UI when offline. -/
theorem canSend_allows_send_when_offline :
    InsightsStatus.offline_mode
      { available := true, offline_mode := true, redact_before_send := true,
        provider := "OpenAI" } = true ∧
    canSend
      (some { available := true, offline_mode := true, redact_before_send := true,
              provider := "OpenAI" }) (some "snap-1") 1 false = true :=
  ⟨rfl, rfl⟩

/-- Claim C2 (amended): when the offline flag is set the dashboard status
message is the offline-disabled message regardless of the redaction flag —
the offline check is evaluated before the redact-before-send check — but the
send gate `canSend` does not consult the offline or redaction flags at all:
it depends only on availability, snapshot presence, selection count and the
loading flag, so offline refusal is not enforced by `canSend` itself. -/
theorem offline_message_first_canSend_ignores_offline :
    (∀ (st : InsightsStatus) (snap : Option String) (cnt : Nat),
        st.offline_mode = true →
        getStatusMessage (some st) snap cnt = "Dashboard disabled - offline mode enabled") ∧
    (∀ (av off off' red red' : Bool) (prov prov' : String)
        (snap : Option String) (cnt : Nat) (ld : Bool),
        canSend (some ⟨av, off, red, prov⟩) snap cnt ld =
          canSend (some ⟨av, off', red', prov'⟩) snap cnt ld) := by
  constructor
  · intro st snap cnt h
    simp [getStatusMessage, h]
  · intro av off off' red red' prov prov' snap cnt ld
    rfl

/-- Claim C2 witness: the amended theorem applied at a concrete status with
the offline flag set and the redaction flag cleared. -/
theorem offline_message_first_witness :
    getStatusMessage
      (some { available := false, offline_mode := true, redact_before_send := false,
              provider := "OpenAI" }) none 0 = "Dashboard disabled - offline mode enabled" :=
  offline_message_first_canSend_ignores_offline.1
    { available := false, offline_mode := true, redact_before_send := false,
      provider := "OpenAI" } none 0 rfl

/-- Claim C10: the safe-file protocol handler serves exactly the joined path
`path.join(outputDir, url)` and only when that path has the output directory
as a plain string prefix, aborting with error `-3` otherwise; the prefix test
is not separator-aware, as the two concrete instances show: a URL escaping to
a sibling directory whose name extends the output directory's name passes the
check and is served, while one escaping elsewhere is aborted. -/
theorem safe_file_string_prefix_check :
    (∀ outputDir requestUrl : List Char,
        safeFileProtocolHandler outputDir requestUrl =
          if outputDir.isPrefixOf (pathJoin outputDir (requestUrl.drop 10)) then
            Except.ok (pathJoin outputDir (requestUrl.drop 10))
          else Except.error (-3)) ∧
    safeFileProtocolHandler "/home/u/Documents/SessionScribe".data
        "safe-file:../SessionScribeEvil/f.txt".data =
      Except.ok "/home/u/Documents/SessionScribeEvil/f.txt".data ∧
    safeFileProtocolHandler "/home/u/Documents/SessionScribe".data
        "safe-file:../../x.txt".data = Except.error (-3) :=
  ⟨fun _ _ => rfl, by rfl, by rfl⟩

/-- Claim C3: an apply call containing an id that belongs to no entity of the
snapshot is a `ValidationError` with no partial output; and along every event
trace the rendered review UI can produce, the accepted id list it would send
is drawn from the loaded snapshot's entity ids, so every request it issues
satisfies the subset precondition. -/
theorem apply_rejects_unknown_ids_and_ui_sends_subset :
    (∀ (snap : Snapshot) (ids : List String) (i : String),
        i ∈ ids → (∀ e ∈ snap.entities, e.id ≠ i) →
        applyCall snap ids = ApplyResult.validationError) ∧
    (∀ (evs : List ReviewEvent) (snap : UISnapshot),
        ValidTrace initReviewState evs →
        (runReview initReviewState evs).snapshot = some snap →
        ∀ i ∈ acceptedEntityIds (runReview initReviewState evs),
          i ∈ snap.entities.map (·.id)) := by
  constructor
  · intro snap ids i hi hne
    have hc : ¬(ids.all (fun i => snap.entities.any (fun e => e.id == i)) = true) := by
      intro hall
      have h1 := List.all_eq_true.mp hall i hi
      obtain ⟨e, he, heq⟩ := List.any_eq_true.mp h1
      exact hne e he (by simpa using heq)
    unfold applyCall
    rw [if_neg hc]
  · intro evs snap htr hsnap i hi
    have hcov := statusesCovered_runReview evs initReviewState
      (fun kv hkv => absurd hkv (List.not_mem_nil kv)) htr
    obtain ⟨snap', hsnap', hmem⟩ := acceptedEntityIds_covered _ hcov i hi
    rw [hsnap] at hsnap'
    injection hsnap' with h
    rw [h]
    exact hmem

/-- Claim C3 witness: an unknown id `"zz"` is rejected on the example
snapshot, and after the UI loads that snapshot the accepted ids it would send
are among the snapshot's entity ids. -/
theorem apply_rejects_unknown_ids_witness :
    applyCall exampleSnapshot ["zz"] = ApplyResult.validationError ∧
    (∀ i ∈ acceptedEntityIds (runReview initReviewState
        [ReviewEvent.load exampleUISnapshot]),
      i ∈ exampleUISnapshot.entities.map (·.id)) :=
  ⟨apply_rejects_unknown_ids_and_ui_sends_subset.1 exampleSnapshot ["zz"] "zz"
      (List.mem_singleton.mpr rfl) (by decide),
   apply_rejects_unknown_ids_and_ui_sends_subset.2 [ReviewEvent.load exampleUISnapshot]
      exampleUISnapshot (ValidTrace.cons _ _ _ trivial (ValidTrace.nil _)) rfl⟩

/-- Claim C4: apply is a pure function of the snapshot and the accepted id
set — repeating a call yields identical output, and any two id lists with the
same members (the same accepted set) yield identical output. -/
theorem apply_pure_function_of_accepted_set (snap : Snapshot) (ids₁ ids₂ : List String)
    (h : ∀ i, i ∈ ids₁ ↔ i ∈ ids₂) :
    applyEngine snap ids₁ = applyEngine snap ids₁ ∧
    applyEngine snap ids₁ = applyEngine snap ids₂ :=
  ⟨rfl, congrArg (applyMask snap.text) (acceptedOf_congr snap ids₁ ids₂ h)⟩

/-- Claim C4 witness: the duplicate-free and duplicated forms of the same
accepted set produce identical redacted text on the example snapshot. -/
theorem apply_pure_function_witness :
    applyEngine exampleSnapshot ["e1", "e1"] = applyEngine exampleSnapshot ["e1"] :=
  (apply_pure_function_of_accepted_set exampleSnapshot ["e1", "e1"] ["e1"]
    (fun i => by simp)).2

/-- Claim C5, counterexample: with buffer `"ab ab"` and one accepted entity
covering the first `"ab"`, the applied output is `"[PHONE] ab"`, in which the
accepted entity's original text still appears verbatim (its second
occurrence lies outside every accepted span), refuting redaction soundness as
stated. -/
theorem accepted_text_reappears_in_redacted_output :
    "ab".data <:+: applyEngine
      { snapshot_id := "snap-2", buffer_version := 1, text := "ab ab".data,
        entities := [{ id := "e1", label := "PHONE", text := "ab".data, start := 0,
                       «end» := 2, confidence := mkRat 8 10,
                       method := DetectionMethod.pattern, contexts := [] }] }
      ["e1"] ∧
    applyEngine
      { snapshot_id := "snap-2", buffer_version := 1, text := "ab ab".data,
        entities := [{ id := "e1", label := "PHONE", text := "ab".data, start := 0,
                       «end» := 2, confidence := mkRat 8 10,
                       method := DetectionMethod.pattern, contexts := [] }]  }
      ["e1"] = "[PHONE] ab".data := by
  exact ⟨by decide, by decide⟩

/-- Claim C5 (amended): each accepted entity's span is replaced by the fixed
placeholder derived from its label, the descending-start replacement order
being equivalent to simultaneous masking of all accepted spans (`maskAbs`);
an accepted entity's text may however still appear verbatim in the output
when the same string also occurs outside the accepted spans. -/
theorem apply_replaces_accepted_spans_with_placeholders (snap : Snapshot)
    (ids : List String)
    (hwf : ∀ e ∈ snap.entities, ValidSpan snap.text e)
    (hdisj : snap.entities.Pairwise SpanDisjoint) :
    applyEngine snap ids = maskAbs snap.text (sortAsc (acceptedOf snap ids)) := by
  unfold applyEngine
  exact applyMask_eq_maskAbs snap.text (acceptedOf snap ids)
    (fun e he => hwf e (List.mem_filter.mp he).1)
    (hdisj.sublist (List.filter_sublist _))

/-- Claim C5 witness: the amended theorem applied to the example snapshot
with only the phone entity accepted. -/
theorem apply_replaces_accepted_spans_witness :
    applyEngine exampleSnapshot ["e1"] =
      maskAbs exampleSnapshot.text (sortAsc (acceptedOf exampleSnapshot ["e1"])) :=
  apply_replaces_accepted_spans_with_placeholders exampleSnapshot ["e1"]
    (by decide) (by decide)

/-- Claim C6: a rejected entity's original text (the slice of the buffer at
its span) survives unchanged — it is an infix of the applied output. -/
theorem rejected_entity_text_preserved (snap : Snapshot) (ids : List String)
    (r : Entity)
    (hwf : ∀ e ∈ snap.entities, ValidSpan snap.text e)
    (hdisj : snap.entities.Pairwise SpanDisjoint)
    (hr : r ∈ snap.entities)
    (hrej : r.id ∉ ids)
    (htext : r.text = (snap.text.drop r.start).take (r.«end» - r.start)) :
    r.text <:+: applyEngine snap ids := by
  have hwfA : ∀ e ∈ acceptedOf snap ids, ValidSpan snap.text e :=
    fun e he => hwf e (List.mem_filter.mp he).1
  have hdisjA : (acceptedOf snap ids).Pairwise SpanDisjoint :=
    hdisj.sublist (List.filter_sublist _)
  unfold applyEngine
  rw [applyMask_eq_maskAbs snap.text (acceptedOf snap ids) hwfA hdisjA, htext]
  have hmemA : ∀ f ∈ sortAsc (acceptedOf snap ids), f ∈ acceptedOf snap ids :=
    fun f hf => (sortAsc_perm _).mem_iff.mp hf
  have hrdisj : ∀ f ∈ sortAsc (acceptedOf snap ids),
      r.«end» ≤ f.start ∨ f.«end» ≤ r.start := by
    intro f hf
    have hfe := List.mem_filter.mp (hmemA f hf)
    have hne : r ≠ f := by
      intro he
      apply hrej
      rw [he]
      exact List.elem_iff.mp hfe.2
    have hsymm : Symmetric SpanDisjoint := fun _ _ h => Or.symm h
    exact hdisj.forall hsymm hr hfe.1 hne
  have := slice_infix_maskAbs_drop snap.text r (sortAsc (acceptedOf snap ids)) 0
    (fun f hf => hwfA f (hmemA f hf))
    (sortAsc_gap snap.text (acceptedOf snap ids) hwfA hdisjA)
    (fun f _ => Nat.zero_le _) hrdisj (Nat.zero_le _)
  simpa using this

/-- Claim C6 witness: with only the phone entity accepted on the example
snapshot, the rejected person entity's text `"John Smith"` survives in the
output. -/
theorem rejected_entity_text_preserved_witness :
    personEntity.text <:+: applyEngine exampleSnapshot ["e1"] :=
  rejected_entity_text_preserved exampleSnapshot ["e1"] personEntity
    (by decide) (by decide) (by decide) (by decide) (by decide)

/-- Claim C7: for two overlapping entities the merger keeps the one with
higher confidence, and on a confidence tie keeps the slow-lane (contextual)
detection over the fast-lane (pattern) one; in the spec's concrete scenario,
the pattern-lane phone entity (confidence 0.8) survives merging with the
overlapping contextual-lane identifier entity (confidence 0.6), which is
dropped. -/
theorem merger_keeps_higher_confidence_tie_slow_lane :
    (∀ f e : Entity, overlaps f e = true →
      f.confidence < e.confidence →
      addDetection [f] e =
        [{ e with id := f.id, contexts := e.contexts ++ f.contexts }]) ∧
    (∀ f e : Entity, overlaps f e = true →
      e.confidence < f.confidence →
      addDetection [f] e = [{ f with contexts := f.contexts ++ e.contexts }]) ∧
    (∀ f e : Entity, overlaps f e = true →
      e.confidence = f.confidence →
      e.method = DetectionMethod.contextual → f.method = DetectionMethod.pattern →
      addDetection [f] e =
        [{ e with id := f.id, contexts := e.contexts ++ f.contexts }]) ∧
    mergeDetections [phoneEntity] [identifierEntity] = [phoneEntity] := by
  have hob : ∀ f e : Entity, overlaps f e = true → overlappedBy [f] e = [f] := by
    intro f e hov
    unfold overlappedBy
    simp [hov]
  refine ⟨?_, ?_, ?_, by decide⟩
  · intro f e hov hconf
    have hbeats : beats e f = true := by
      unfold beats
      simp [hconf]
    unfold addDetection
    rw [hob f e hov]
    simp [hov, hbeats]
  · intro f e hov hconf
    have hbeats : beats e f = false := by
      unfold beats
      have h1 : ¬f.confidence < e.confidence := lt_asymm hconf
      have h2 : ¬e.confidence = f.confidence := ne_of_lt hconf
      simp [h1, h2]
    unfold addDetection
    rw [hob f e hov]
    simp [hov, hbeats]
  · intro f e hov hconf hme hmf
    have hbeats : beats e f = true := by
      unfold beats
      simp [hconf, hme, hmf]
    unfold addDetection
    rw [hob f e hov]
    simp [hov, hbeats]

/-- Claim C7 witness: the higher-confidence phone detection supersedes an
overlapping lower-confidence incumbent, keeping the incumbent's stable id. -/
theorem merger_keeps_higher_confidence_witness :
    addDetection [identifierEntity] phoneEntity =
      [{ phoneEntity with
          id := identifierEntity.id,
          contexts := phoneEntity.contexts ++ identifierEntity.contexts }] :=
  merger_keeps_higher_confidence_tie_slow_lane.1 identifierEntity phoneEntity
    (by decide) (by decide)

/-- Claim C8: along every event trace of a session — after every ingest with
its inline fast-lane merge and after every slow-lane merge — the entities in
the session's index have pairwise disjoint half-open ranges. -/
theorem entity_index_pairwise_disjoint (evs : List SessionEvent) :
    (runSession initSession evs).index.Pairwise SpanDisjoint :=
  (noOverlap_runSession evs initSession List.Pairwise.nil).imp
    (fun h => (overlaps_eq_false_iff _ _).mp h)

/-- Claim C9: loading a snapshot marks every entity accepted, so the id list
an immediate `applyRedactions` would send is exactly the snapshot's entity id
list. -/
theorem load_snapshot_accepts_all_entities (st : ReviewState) (snap : UISnapshot)
    (hnd : (snap.entities.map (·.id)).Nodup) :
    acceptedEntityIds (uiLoadSnapshot st snap) = snap.entities.map (·.id) :=
  acceptedEntityIds_uiLoadSnapshot st snap hnd

/-- Claim C9 witness: on the example snapshot, the freshly loaded review
state accepts exactly the two entity ids. -/
theorem load_snapshot_accepts_all_entities_witness :
    acceptedEntityIds (uiLoadSnapshot initReviewState exampleUISnapshot) =
      exampleUISnapshot.entities.map (·.id) :=
  load_snapshot_accepts_all_entities initReviewState exampleUISnapshot (by decide)

end SessionScribe
